import Mathlib

/-!
Verification of the rulego network-resource pool core: a shallow embedding of
`engine/net_pool.go` (the two-level pool `NetPool` / `NodeNetPool`), of the
lazy connection wrapper `NetResourceNode` from `components/base`, and of the
spec-described node-context operations whose bodies live outside the provided
sources.  Go's `sync.Map` instances are modelled as association lists with
unique keys, machine state is passed explicitly, and the observable effects a
claim talks about (decode calls, context constructions, destroy calls) are
returned alongside each operation's result.
-/

set_option autoImplicit false

/-- Error taxonomy of the core, mirroring the sentinel error values of the
source (`ErrNotImplemented`, `ErrNetPoolNil`, `ErrClientNotInit`, the
formatted not-found errors) plus the spec-named conditions of the
node-context layer. -/
inductive Err where
  | notImplemented
  | netPoolNil
  | clientNotInit
  | componentNotFound (nodeType : String)
  | initFailed (msg : String)
  | decodeError (msg : String)
  | notFound (id : String)
  | operationNotSupported
deriving DecidableEq

/-- Component definition record (`types.RuleNode`): only its declaration and
uses appear in the sources, so the fields follow spec section 3 ("id, type,
configuration, debugMode") and the JSON literals of the tests. -/
structure RuleNode where
  Id : String
  nodeType : String
  name : String
  debugMode : Bool
  configuration : List (String × String)
deriving DecidableEq

/-- A component instance as the pool observes it: whether the instantiated
node implements the connection-bearing capability `types.NetResource`
(queried by the type assertion in `NodeNetPool.NewFromDef`), and whether its
own initializer fails. -/
structure Component where
  implementsNetResource : Bool
  initError : Option Err
deriving DecidableEq

/-- The slice of `types.Config` the pool code uses: the component registry
consulted during instantiation and the parser's `DecodeRuleNode`. -/
structure Config where
  registry : String → Option Component
  decodeRuleNode : String → Except Err RuleNode

instance {ε α : Type} [DecidableEq ε] [DecidableEq α] : DecidableEq (Except ε α) := fun a b =>
  match a, b with
  | .ok x, .ok y =>
    if h : x = y then isTrue (congrArg Except.ok h) else isFalse (fun hh => h (Except.ok.inj hh))
  | .error x, .error y =>
    if h : x = y then isTrue (congrArg Except.error h)
    else isFalse (fun hh => h (Except.error.inj hh))
  | .ok _, .error _ => isFalse (fun hh => Except.noConfusion hh)
  | .error _, .ok _ => isFalse (fun hh => Except.noConfusion hh)

/-- A node context coupling one component instance to its definition
(`engine.RuleNodeCtx`, whose full body is outside the provided sources; the
fields here are the two the pool reads: `SelfDefinition` and `Node`). -/
structure RuleNodeCtx where
  selfDefinition : RuleNode
  node : Component
deriving DecidableEq

/-- Modelled from the spec: `InitNetResourceNodeCtx` (engine/node_ctx.go is
not under src/; spec section 4.2: construction "fails with ComponentNotFound
if definition.type is unregistered; fails with whatever error the component's
own Initialize returns — in both cases no Node Context is returned"). -/
def InitNetResourceNodeCtx (cfg : Config) (d : RuleNode) : Except Err RuleNodeCtx :=
  match cfg.registry d.nodeType with
  | none => .error (.componentNotFound d.nodeType)
  | some comp =>
    match comp.initError with
    | some e => .error e
    | none => .ok { selfDefinition := d, node := comp }

/-- Modelled from the spec: `RuleNodeCtx.GetNodeId` (engine/node_ctx.go is not
under src/; spec section 3: the pool key "defaults to the Definition's id"). -/
def RuleNodeCtx.GetNodeId (ctx : RuleNodeCtx) : String :=
  ctx.selfDefinition.Id

/-- `NewNetResourceCtx` wraps a rule-node context unchanged
(`engine/net_pool.go` line 205). -/
def NewNetResourceCtx (ctx : RuleNodeCtx) : RuleNodeCtx :=
  ctx

/-- Modelled from the spec: `RuleNodeCtx.ReloadChild` (engine/node_ctx.go is
not under src/, only its test; spec sections 4.2 and 7: for non-composite
component types — which is every type handled by `RuleNodeCtx` — it "must
surface an explicit operation-not-supported condition rather than an abrupt
process-level fault", mutating nothing).  Totality of this Lean function is
the absence of any abrupt fault. -/
def RuleNodeCtx.ReloadChild (ctx : RuleNodeCtx) (childId : String) (dsl : String) :
    Except Err Unit × RuleNodeCtx :=
  (.error .operationNotSupported, ctx)

/-- First-match lookup in an association list; models `sync.Map.Load`. -/
def lookupEntry {α : Type} : List (String × α) → String → Option α
  | [], _ => none
  | kv :: rest, k => if kv.1 = k then some kv.2 else lookupEntry rest k

/-- In-place replace-or-append; models `sync.Map.Store` (and the storing half
of `LoadOrStore`). -/
def storeEntry {α : Type} : List (String × α) → String → α → List (String × α)
  | [], k, v => [(k, v)]
  | kv :: rest, k, v => if kv.1 = k then (k, v) :: rest else kv :: storeEntry rest k v

/-- Key removal; models `sync.Map.Delete`. -/
def deleteEntry {α : Type} (l : List (String × α)) (k : String) : List (String × α) :=
  l.filter (fun kv => kv.1 ≠ k)

/-- Per-type sub-pool (`engine.NodeNetPool`): its node type and its
`entries` map keyed by resource id. -/
structure NodeNetPool where
  nodeType : String
  entries : List (String × RuleNodeCtx)
deriving DecidableEq

/-- `NewNodeNetPool` (engine/net_pool.go line 114). -/
def NewNodeNetPool (nodeType : String) : NodeNetPool :=
  { nodeType := nodeType, entries := [] }

/-- Result of a creation call, together with the effects the claims observe:
the updated sub-pool, how many node contexts were constructed (successful
`InitNetResourceNodeCtx` calls), how many `DecodeRuleNode` calls ran, and
which contexts had `Destroy` called on them before returning. -/
structure NewResult where
  result : Except Err RuleNodeCtx
  pool : NodeNetPool
  inits : Nat
  decodes : Nat
  destroys : List RuleNodeCtx
deriving DecidableEq

/-- `NodeNetPool.NewFromDef` (engine/net_pool.go lines 136-150): return the
existing entry for `def.Id` if present; otherwise construct and initialize a
node context, reject it with `ErrNotImplemented` when the node does not
implement `types.NetResource`, and otherwise store it under its own node
id. -/
def NodeNetPool.NewFromDef (cfg : Config) (n : NodeNetPool) (d : RuleNode) : NewResult :=
  match lookupEntry n.entries d.Id with
  | some v => { result := .ok v, pool := n, inits := 0, decodes := 0, destroys := [] }
  | none =>
    match InitNetResourceNodeCtx cfg d with
    | .ok ctx =>
      let rCtx := NewNetResourceCtx ctx
      if rCtx.node.implementsNetResource then
        { result := .ok rCtx
          pool := { n with entries := storeEntry n.entries rCtx.GetNodeId rCtx }
          inits := 1, decodes := 0, destroys := [] }
      else
        { result := .error .notImplemented, pool := n, inits := 1, decodes := 0, destroys := [] }
    | .error e => { result := .error e, pool := n, inits := 0, decodes := 0, destroys := [] }

/-- `NodeNetPool.New` (engine/net_pool.go lines 122-134): return the existing
entry for `id` if present; otherwise decode the definition bytes, override
the decoded id with `id` when `id` is non-empty, and delegate to
`NewFromDef`. -/
def NodeNetPool.New (cfg : Config) (n : NodeNetPool) (id : String) (dsl : String) : NewResult :=
  match lookupEntry n.entries id with
  | some v => { result := .ok v, pool := n, inits := 0, decodes := 0, destroys := [] }
  | none =>
    match cfg.decodeRuleNode dsl with
    | .ok nodeDef =>
      let nodeDef := if id ≠ "" then { nodeDef with Id := id } else nodeDef
      let r := NodeNetPool.NewFromDef cfg n nodeDef
      { r with decodes := r.decodes + 1 }
    | .error e => { result := .error e, pool := n, inits := 0, decodes := 1, destroys := [] }

/-- `NodeNetPool.Get` (engine/net_pool.go lines 153-159). -/
def NodeNetPool.Get (n : NodeNetPool) (id : String) : Option RuleNodeCtx :=
  lookupEntry n.entries id

/-- `NodeNetPool.Del` (engine/net_pool.go lines 171-176): destroy and remove
the entry when present; the destroyed contexts are returned as the observable
`Destroy` calls. -/
def NodeNetPool.Del (n : NodeNetPool) (id : String) : NodeNetPool × List RuleNodeCtx :=
  match lookupEntry n.entries id with
  | some v => ({ n with entries := deleteEntry n.entries id }, [v])
  | none => (n, [])

/-- The `Range`-and-`Del` loop of `NodeNetPool.Stop`, iterating over the
snapshot of keys while the map shrinks. -/
def NodeNetPool.stopLoop : List String → NodeNetPool → List RuleNodeCtx →
    NodeNetPool × List RuleNodeCtx
  | [], n, acc => (n, acc)
  | k :: ks, n, acc =>
    let r := NodeNetPool.Del n k
    NodeNetPool.stopLoop ks r.1 (acc ++ r.2)

/-- `NodeNetPool.Stop` (engine/net_pool.go lines 179-184). -/
def NodeNetPool.Stop (n : NodeNetPool) : NodeNetPool × List RuleNodeCtx :=
  NodeNetPool.stopLoop (n.entries.map Prod.fst) n []

/-- `NodeNetPool.GetAll` (engine/net_pool.go lines 187-194). -/
def NodeNetPool.GetAll (n : NodeNetPool) : List RuleNodeCtx :=
  n.entries.map Prod.snd

/-- Outer pool manager (`engine.NetPool`): the map from node type to
sub-pool. -/
structure NetPool where
  pools : List (String × NodeNetPool)
deriving DecidableEq

/-- Creation result at the outer-pool level. -/
structure NetNewResult where
  result : Except Err RuleNodeCtx
  pool : NetPool
  inits : Nat
  decodes : Nat
  destroys : List RuleNodeCtx
deriving DecidableEq

/-- The `LoadOrStore` of `NetPool.New`/`NewFromDef`: fetch the sub-pool for a
node type, lazily creating an empty one. -/
def NetPool.subPoolFor (p : NetPool) (nodeType : String) : NodeNetPool :=
  match lookupEntry p.pools nodeType with
  | some sub => sub
  | none => NewNodeNetPool nodeType

/-- `NetPool.New` (engine/net_pool.go lines 49-52). -/
def NetPool.New (cfg : Config) (p : NetPool) (nodeType id : String) (dsl : String) :
    NetNewResult :=
  let r := NodeNetPool.New cfg (p.subPoolFor nodeType) id dsl
  { result := r.result, pool := { pools := storeEntry p.pools nodeType r.pool }
    inits := r.inits, decodes := r.decodes, destroys := r.destroys }

/-- `NetPool.NewFromDef` (engine/net_pool.go lines 55-58). -/
def NetPool.NewFromDef (cfg : Config) (p : NetPool) (d : RuleNode) : NetNewResult :=
  let r := NodeNetPool.NewFromDef cfg (p.subPoolFor d.nodeType) d
  { result := r.result, pool := { pools := storeEntry p.pools d.nodeType r.pool }
    inits := r.inits, decodes := r.decodes, destroys := r.destroys }

/-- `NetPool.Get` (engine/net_pool.go lines 61-67). -/
def NetPool.Get (p : NetPool) (nodeType id : String) : Option RuleNodeCtx :=
  match lookupEntry p.pools nodeType with
  | some sub => sub.Get id
  | none => none

/-- The `Range` loop of `NetPool.Stop`: stop each sub-pool of the snapshot and
delete its key from the outer map. -/
def NetPool.stopLoop : List (String × NodeNetPool) → NetPool → List RuleNodeCtx →
    NetPool × List RuleNodeCtx
  | [], p, acc => (p, acc)
  | kv :: rest, p, acc =>
    let d := (NodeNetPool.Stop kv.2).2
    NetPool.stopLoop rest { pools := deleteEntry p.pools kv.1 } (acc ++ d)

/-- `NetPool.Stop` (engine/net_pool.go lines 86-92). -/
def NetPool.Stop (p : NetPool) : NetPool × List RuleNodeCtx :=
  NetPool.stopLoop p.pools p []

/-- `NetPool.GetAll` (engine/net_pool.go lines 95-103), as an association
list from node type to the sub-pool's contexts. -/
def NetPool.GetAll (p : NetPool) : List (String × List RuleNodeCtx) :=
  p.pools.map (fun kv => (kv.1, kv.2.GetAll))

/-- The invariant of claim C10: every stored entry is keyed by the node id of
the stored context itself. -/
def PoolInv (n : NodeNetPool) : Prop :=
  ∀ k e, lookupEntry n.entries k = some e → RuleNodeCtx.GetNodeId e = k

/-- Modelled from the spec: the reserved reference-scheme prefix
`types.NodeConfigurationPrefixNetResource` (declared outside the provided
sources).  Spec section 6 describes "a ref:// style prefix" and the engine
test uses the literal configuration value "ref://my_mqtt_client01". -/
def NodeConfigurationPrefixNetResource : String :=
  "ref://"

/-- `nodeUtils.IsNetPool` (components/base, src/unnamed/part_001 lines 56-58):
`strings.HasPrefix(server, prefix)`, on the character-list model of Go's byte
strings (the prefix is ASCII, so byte and character prefixes coincide). -/
def nodeUtils.IsNetPool (server : String) : Bool :=
  NodeConfigurationPrefixNetResource.data.isPrefixOf server.data

/-- `nodeUtils.GetNetResourceId` (src/unnamed/part_001 lines 60-66): the
suffix after the prefix when the prefix is present, "" otherwise. -/
def nodeUtils.GetNetResourceId (server : String) : String :=
  if nodeUtils.IsNetPool server then
    String.mk (server.data.drop NodeConfigurationPrefixNetResource.data.length)
  else
    ""

/-- The lazy connection wrapper `base.NetResourceNode[T]`
(src/unnamed/part_001 lines 102-112).  Of the embedded `types.Config` the
wrapper reads only `NetPool`, modelled as the pool's `GetNetResource`
method — `none` when no pool is configured; a dial function returns Go's
`(T, error)` pair. -/
structure NetResourceNode (T : Type) where
  netPool : Option (String → String → T × Option Err)
  nodeType : String
  netResourceId : String
  initNetResourceFunc : Option (Unit → T × Option Err)
  connecting : Int

/-- Result of `NetResourceNode.Init`: the written wrapper state, the number
of local dials performed during the call, and the returned error. -/
structure InitResult (T : Type) where
  node : NetResourceNode T
  dials : Nat
  err : Option Err

/-- `NetResourceNode.Init` (src/unnamed/part_001 lines 114-127): when the
server string resolves to a pool resource id, record it and dial nothing;
otherwise store the dial function, invoke it once immediately, and return its
error. -/
def NetResourceNode.Init {T : Type} (netPool : Option (String → String → T × Option Err))
    (nodeType server : String) (initNetResourceFunc : Unit → T × Option Err) : InitResult T :=
  let netResourceId := nodeUtils.GetNetResourceId server
  if netResourceId = "" then
    { node := { netPool := netPool, nodeType := nodeType, netResourceId := ""
                initNetResourceFunc := some initNetResourceFunc, connecting := 0 }
      dials := 1, err := (initNetResourceFunc ()).2 }
  else
    { node := { netPool := netPool, nodeType := nodeType, netResourceId := netResourceId
                initNetResourceFunc := none, connecting := 0 }
      dials := 0, err := none }

/-- `NetResourceNode.GetClient` (src/unnamed/part_001 lines 129-146): pooled
mode performs a pool lookup on every call (failing with `ErrNetPoolNil` when
no pool is configured); local mode invokes the privately stored dial function
(failing with `ErrClientNotInit` when none was ever established).
`zeroValue[T]` is `default`. -/
def NetResourceNode.GetClient {T : Type} [Inhabited T] (x : NetResourceNode T) :
    T × Option Err :=
  if x.netResourceId ≠ "" then
    match x.netPool with
    | none => (default, some .netPoolNil)
    | some pool =>
      let pe := pool x.nodeType x.netResourceId
      match pe.2 with
      | none => (pe.1, none)
      | some e => (default, some e)
  else
    match x.initNetResourceFunc with
    | some f => f ()
    | none => (default, some .clientNotInit)

/-- `NetResourceNode.Connect` (src/unnamed/part_001 lines 149-151):
`atomic.CompareAndSwapInt32(&x.Connecting, 0, 1)`. -/
def NetResourceNode.Connect {T : Type} (x : NetResourceNode T) : Bool × NetResourceNode T :=
  if x.connecting = 0 then (true, { x with connecting := 1 }) else (false, x)

/-- `NetResourceNode.IsConnecting` (src/unnamed/part_001 lines 154-156):
`atomic.LoadInt32(&x.Connecting) == 1`; a pure read, so it takes the state
and returns only the flag. -/
def NetResourceNode.IsConnecting {T : Type} (x : NetResourceNode T) : Bool :=
  x.connecting = 1

/-- `NetResourceNode.Connected` (src/unnamed/part_001 lines 159-161):
`atomic.StoreInt32(&x.Connecting, 0)`. -/
def NetResourceNode.Connected {T : Type} (x : NetResourceNode T) : NetResourceNode T :=
  { x with connecting := 0 }

/-- One step of an interleaving of the three guard operations, for the
sequence property of claim C8. -/
inductive ConnectOp where
  | connect
  | isConnecting
  | connected
deriving DecidableEq

/-- State after one guard operation (`IsConnecting` is a pure read and leaves
the state unchanged). -/
def runOp {T : Type} (x : NetResourceNode T) : ConnectOp → NetResourceNode T
  | .connect => x.Connect.2
  | .isConnecting => x
  | .connected => x.Connected

/-- State after a sequence of guard operations. -/
def runOps {T : Type} (x : NetResourceNode T) (ops : List ConnectOp) : NetResourceNode T :=
  ops.foldl runOp x

/-- A configuration value: a string (subject to placeholder substitution) or
a non-string value, which variable resolution passes through unchanged. -/
inductive CfgValue where
  | str (s : String)
  | num (n : Int)
  | boolean (b : Bool)
deriving DecidableEq

/-- Read the characters up to the first closing brace: `some (content, rest)`
when a brace closes the placeholder, `none` when the brace never closes. -/
def readBrace : List Char → Option (List Char × List Char)
  | [] => none
  | c :: rest =>
    if c = '}' then some ([], rest)
    else
      match readBrace rest with
      | some (content, after) => some (c :: content, after)
      | none => none

/-- Split a placeholder body at its first dot into scope and name. -/
def splitScope : List Char → Option (List Char × List Char)
  | [] => none
  | c :: rest =>
    if c = '.' then some ([], rest)
    else
      match splitScope rest with
      | some (a, b) => some (c :: a, b)
      | none => none

/-- Scope lookup of the resolver: `global` reads the process-wide properties;
`vars` reads the pipeline scope when one is supplied; any other scope is
unknown. -/
def lookupVar (props : List (String × String)) (chainVars : Option (List (String × String)))
    (scope name : String) : Option String :=
  if scope = "global" then lookupEntry props name
  else if scope = "vars" then
    match chainVars with
    | some vs => lookupEntry vs name
    | none => none
  else none

/-- Placeholder substitution over the characters of one string value: each
well-formed `\x7b dollar-brace scope.name brace \x7d` occurrence whose scope
and name resolve is replaced, and every other occurrence is left verbatim.
The fuel argument (instantiated with the string length) only serves
structural termination; one character is consumed per unit. -/
def substAux (props : List (String × String)) (chainVars : Option (List (String × String))) :
    Nat → List Char → List Char
  | 0, l => l
  | _ + 1, [] => []
  | fuel + 1, c :: rest =>
    if c = '$' then
      match rest with
      | c2 :: rest2 =>
        if c2 = '{' then
          match readBrace rest2 with
          | some (content, after) =>
            let replaced :=
              match splitScope content with
              | some (scopeChars, nameChars) =>
                lookupVar props chainVars (String.mk scopeChars) (String.mk nameChars)
              | none => none
            match replaced with
            | some v => v.data ++ substAux props chainVars fuel after
            | none => '$' :: '{' :: (content ++ '}' :: substAux props chainVars fuel after)
          | none => c :: substAux props chainVars fuel rest
        else c :: substAux props chainVars fuel rest
      | [] => c :: substAux props chainVars fuel rest
    else c :: substAux props chainVars fuel rest

/-- Substitute every resolvable placeholder of one string value. -/
def substituteVar (props : List (String × String))
    (chainVars : Option (List (String × String))) (s : String) : String :=
  String.mk (substAux props chainVars s.data.length s.data)

/-- Modelled from the spec: `processVariables` (engine/ctx.go is not under
src/, only its test).  Spec section 4.1: each string-valued entry has its
recognized placeholders substituted against the process scope
(`config.Properties`) and, when a pipeline context is supplied, its declared
`vars`; unresolved placeholders stay verbatim with no error, and non-string
values are copied unchanged.  The pipeline scope is modelled by its `vars`
map (its `decryptSecrets` map works the same way and no claim exercises
it). -/
def processVariables (props : List (String × String))
    (chainVars : Option (List (String × String))) (c : List (String × CfgValue)) :
    List (String × CfgValue) × Option Err :=
  (c.map (fun kv =>
    match kv.2 with
    | CfgValue.str s => (kv.1, CfgValue.str (substituteVar props chainVars s))
    | v => (kv.1, v)), none)

/-- The literal placeholder string `\x7b dollar-brace scope.name brace \x7d`,
built on the character model. -/
def ph (scope name : String) : String :=
  String.mk ('$' :: '{' :: (scope.data ++ '.' :: (name.data ++ ['}'])))

/-- A connection-bearing component sample (the test's "mqttClient"). -/
def mqttComponent : Component :=
  { implementsNetResource := true, initError := none }

/-- A plain component sample lacking the capability (the test's
"jsFilter"). -/
def filterComponent : Component :=
  { implementsNetResource := false, initError := none }

/-- Sample decoded definition of a pooled mqtt client. -/
def mqttDef : RuleNode :=
  { Id := "my_mqtt_client", nodeType := "mqttClient", name := "mqtt client"
    debugMode := false, configuration := [("Server", "127.0.0.1:1883")] }

/-- Sample decoded definition of a non-network filter node. -/
def filterDef : RuleNode :=
  { Id := "my_jsFilter", nodeType := "jsFilter", name := "filter"
    debugMode := false, configuration := [] }

/-- A sample registry holding the two sample component types. -/
def sampleRegistry : String → Option Component := fun t =>
  if t = "mqttClient" then some mqttComponent
  else if t = "jsFilter" then some filterComponent
  else none

/-- A sample parser decoding two fixed definition byte strings. -/
def sampleDecode : String → Except Err RuleNode := fun s =>
  if s = "mqtt-dsl" then .ok mqttDef
  else if s = "filter-dsl" then .ok filterDef
  else .error (.decodeError s)

/-- The sample configuration used by the concrete witnesses. -/
def sampleConfig : Config :=
  { registry := sampleRegistry, decodeRuleNode := sampleDecode }

/-- The pooled context the sample mqtt definition creates. -/
def mqttCtx : RuleNodeCtx :=
  { selfDefinition := { mqttDef with Id := "my_mqtt_client01" }, node := mqttComponent }

/-- A sample sub-pool already holding the mqtt context. -/
def sampleSubPool : NodeNetPool :=
  { nodeType := "mqttClient", entries := [("my_mqtt_client01", mqttCtx)] }

/-- A sample outer pool holding the sample sub-pool. -/
def samplePool : NetPool :=
  { pools := [("mqttClient", sampleSubPool)] }

/-- The context the sample filter definition creates (it lacks the
connection-bearing capability). -/
def filterCtx : RuleNodeCtx :=
  { selfDefinition := filterDef, node := filterComponent }

/-- The idle wrapper state used by the guard witness. -/
def guardNode : NetResourceNode Nat :=
  { netPool := none, nodeType := "t", netResourceId := ""
    initNetResourceFunc := none, connecting := 0 }

/-- The pooled context created when the sample mqtt definition is decoded and
stored under the overriding id "my_mqtt_client02". -/
def mqttCtx2 : RuleNodeCtx :=
  { selfDefinition := { mqttDef with Id := "my_mqtt_client02" }, node := mqttComponent }

theorem lookupEntry_storeEntry_self {α : Type} (l : List (String × α)) (k : String) (v : α) :
    lookupEntry (storeEntry l k v) k = some v := by
  induction l with
  | nil => simp [storeEntry, lookupEntry]
  | cons kv rest ih =>
    by_cases h : kv.1 = k
    · simp [storeEntry, lookupEntry, h]
    · simp [storeEntry, lookupEntry, h, ih]

theorem lookupEntry_storeEntry_ne {α : Type} (l : List (String × α)) (k k' : String) (v : α)
    (h : k' ≠ k) : lookupEntry (storeEntry l k v) k' = lookupEntry l k' := by
  induction l with
  | nil => simp [storeEntry, lookupEntry, Ne.symm h]
  | cons kv rest ih =>
    by_cases hk : kv.1 = k
    · subst hk
      simp [storeEntry, lookupEntry, h, Ne.symm h]
    · simp [storeEntry, lookupEntry, hk, ih]

theorem storeEntry_lookup_self {α : Type} (l : List (String × α)) (k : String) (v : α)
    (h : lookupEntry l k = some v) : storeEntry l k v = l := by
  induction l with
  | nil => simp [lookupEntry] at h
  | cons kv rest ih =>
    obtain ⟨k0, v0⟩ := kv
    by_cases hk : k0 = k
    · subst hk
      simp [lookupEntry] at h
      simp [storeEntry, h]
    · simp [lookupEntry, hk] at h
      simp [storeEntry, hk, ih h]

theorem lookupEntry_mem {α : Type} (l : List (String × α)) (k : String) (v : α)
    (h : lookupEntry l k = some v) : (k, v) ∈ l := by
  induction l with
  | nil => simp [lookupEntry] at h
  | cons kv rest ih =>
    obtain ⟨k0, v0⟩ := kv
    by_cases hk : k0 = k
    · subst hk
      simp [lookupEntry] at h
      rw [← h]
      exact List.mem_cons_self _ _
    · simp [lookupEntry, hk] at h
      exact List.mem_cons_of_mem _ (ih h)

/-- C1: pool creation is idempotent per key: when an entry for `(type, id)`
already exists, `NetPool.New` returns that very entry, leaves the pool
unchanged, decodes nothing and constructs nothing, whatever the definition
bytes contain. -/
theorem netpool_new_existing_entry_idempotent
    (cfg : Config) (p : NetPool) (nodeType id : String) (sub : NodeNetPool) (e : RuleNodeCtx)
    (hsub : lookupEntry p.pools nodeType = some sub)
    (he : lookupEntry sub.entries id = some e) (dsl : String) :
    NetPool.New cfg p nodeType id dsl =
      { result := .ok e, pool := p, inits := 0, decodes := 0, destroys := [] } := by
  have h1 : p.subPoolFor nodeType = sub := by
    unfold NetPool.subPoolFor
    rw [hsub]
  unfold NetPool.New
  rw [h1]
  unfold NodeNetPool.New
  rw [he]
  simp [storeEntry_lookup_self _ _ _ hsub]

theorem netpool_new_existing_entry_idempotent_witness :
    lookupEntry samplePool.pools "mqttClient" = some sampleSubPool ∧
    lookupEntry sampleSubPool.entries "my_mqtt_client01" = some mqttCtx ∧
    NetPool.New sampleConfig samplePool "mqttClient" "my_mqtt_client01" "unrelated bytes" =
      { result := .ok mqttCtx, pool := samplePool, inits := 0, decodes := 0, destroys := [] } :=
  ⟨by decide, by decide,
    netpool_new_existing_entry_idempotent sampleConfig samplePool "mqttClient"
      "my_mqtt_client01" sampleSubPool mqttCtx (by decide) (by decide) "unrelated bytes"⟩

/-- C2: when the definition's freshly instantiated component does not
implement the connection-bearing capability, `NodeNetPool.NewFromDef` returns
`ErrNotImplemented` with no context, and the sub-pool's entries are exactly
what they were before the call (the hypothesis `hfresh` states that the call
reaches instantiation at all: a pre-existing entry for the definition's id is
returned before any component is instantiated, which is claim C1's
behaviour). -/
theorem newFromDef_not_net_resource_error
    (cfg : Config) (n : NodeNetPool) (d : RuleNode) (ctx : RuleNodeCtx)
    (hfresh : lookupEntry n.entries d.Id = none)
    (hinit : InitNetResourceNodeCtx cfg d = .ok ctx)
    (hcap : ctx.node.implementsNetResource = false) :
    NodeNetPool.NewFromDef cfg n d =
      { result := .error .notImplemented, pool := n, inits := 1, decodes := 0, destroys := [] } := by
  unfold NodeNetPool.NewFromDef
  rw [hfresh, hinit]
  simp [NewNetResourceCtx, hcap]

theorem newFromDef_not_net_resource_error_witness :
    lookupEntry (NewNodeNetPool "jsFilter").entries filterDef.Id = none ∧
    InitNetResourceNodeCtx sampleConfig filterDef = .ok filterCtx ∧
    filterCtx.node.implementsNetResource = false ∧
    NodeNetPool.NewFromDef sampleConfig (NewNodeNetPool "jsFilter") filterDef =
      { result := .error .notImplemented, pool := NewNodeNetPool "jsFilter"
        inits := 1, decodes := 0, destroys := [] } :=
  ⟨by decide, by decide, by decide,
    newFromDef_not_net_resource_error sampleConfig (NewNodeNetPool "jsFilter") filterDef
      filterCtx (by decide) (by decide) (by decide)⟩

/-- C3 counterexample: at a concrete definition whose component lacks the
capability, `NodeNetPool.NewFromDef` constructs and initializes a node
context (`inits = 1`), fails with `ErrNotImplemented`, and calls `Destroy` on
nothing (`destroys = []`) — the claim says the already-allocated context is
destroyed before the error is returned. -/
theorem newFromDef_failed_create_no_destroy_cex :
    (NodeNetPool.NewFromDef sampleConfig (NewNodeNetPool "jsFilter") filterDef).result
        = .error .notImplemented ∧
    (NodeNetPool.NewFromDef sampleConfig (NewNodeNetPool "jsFilter") filterDef).inits = 1 ∧
    (NodeNetPool.NewFromDef sampleConfig (NewNodeNetPool "jsFilter") filterDef).destroys
        = [] := by
  decide

/-- C3 amended: when `NodeNetPool.NewFromDef` fails after a node context has
been successfully constructed and initialized (the `ErrNotImplemented` path),
the failed entry is never stored, but the already-allocated context is not
destroyed either — it is dropped with no `Destroy` call before the error is
returned. -/
theorem newFromDef_failure_leaves_context_undestroyed
    (cfg : Config) (n : NodeNetPool) (d : RuleNode) (ctx : RuleNodeCtx)
    (hfresh : lookupEntry n.entries d.Id = none)
    (hinit : InitNetResourceNodeCtx cfg d = .ok ctx)
    (hcap : ctx.node.implementsNetResource = false) :
    (NodeNetPool.NewFromDef cfg n d).result = .error .notImplemented ∧
    (NodeNetPool.NewFromDef cfg n d).pool = n ∧
    (NodeNetPool.NewFromDef cfg n d).inits = 1 ∧
    (NodeNetPool.NewFromDef cfg n d).destroys = [] := by
  unfold NodeNetPool.NewFromDef
  rw [hfresh, hinit]
  simp [NewNetResourceCtx, hcap]

theorem newFromDef_failure_leaves_context_undestroyed_witness :
    lookupEntry sampleSubPool.entries filterDef.Id = none ∧
    InitNetResourceNodeCtx sampleConfig filterDef = .ok filterCtx ∧
    (NodeNetPool.NewFromDef sampleConfig sampleSubPool filterDef).pool = sampleSubPool ∧
    (NodeNetPool.NewFromDef sampleConfig sampleSubPool filterDef).destroys = [] :=
  ⟨by decide, by decide,
    (newFromDef_failure_leaves_context_undestroyed sampleConfig sampleSubPool filterDef
      filterCtx (by decide) (by decide) (by decide)).2.1,
    (newFromDef_failure_leaves_context_undestroyed sampleConfig sampleSubPool filterDef
      filterCtx (by decide) (by decide) (by decide)).2.2.2⟩

/-- C4: for every node context of a non-composite component type (every type
handled by `RuleNodeCtx`), `ReloadChild` returns the explicit
operation-not-supported error value and leaves the context unchanged; being a
total Lean function, it cannot escalate to an abrupt process-level fault. -/
theorem reloadChild_unsupported (ctx : RuleNodeCtx) (childId dsl : String) :
    RuleNodeCtx.ReloadChild ctx childId dsl = (.error .operationNotSupported, ctx) :=
  rfl

/-- C5: `GetClient` of the lazy connection wrapper: in pooled mode
(`NetResourceId` non-empty) the result is whatever the currently configured
pool answers for `(nodeType, netResourceId)` — so every call is a fresh
lookup and a pool-side change is observed by the very next call — and the
call fails with `ErrNetPoolNil` when no pool is configured; in local mode it
returns the privately established dial result, and fails with
`ErrClientNotInit` when no dial function was ever established. -/
theorem getClient_modes {T : Type} [Inhabited T] (x : NetResourceNode T) :
    (x.netResourceId ≠ "" → x.netPool = none →
      x.GetClient = (default, some Err.netPoolNil)) ∧
    (∀ pool, x.netResourceId ≠ "" → x.netPool = some pool →
      ((pool x.nodeType x.netResourceId).2 = none →
        x.GetClient = ((pool x.nodeType x.netResourceId).1, none)) ∧
      (∀ e, (pool x.nodeType x.netResourceId).2 = some e →
        x.GetClient = (default, some e))) ∧
    (∀ f, x.netResourceId = "" → x.initNetResourceFunc = some f → x.GetClient = f ()) ∧
    (x.netResourceId = "" → x.initNetResourceFunc = none →
      x.GetClient = (default, some Err.clientNotInit)) := by
  refine ⟨fun h1 h2 => ?_, fun pool h1 h2 => ⟨fun h3 => ?_, fun e h3 => ?_⟩,
    fun f h1 h2 => ?_, fun h1 h2 => ?_⟩ <;>
    simp [NetResourceNode.GetClient, h1, h2, *]

theorem getClient_modes_witness :
    NetResourceNode.GetClient
      { netPool := some fun _ _ => ((42 : Nat), none), nodeType := "mqttClient"
        netResourceId := "c1", initNetResourceFunc := none, connecting := 0 } = (42, none) ∧
    NetResourceNode.GetClient
      { netPool := none, nodeType := "mqttClient", netResourceId := "c1"
        initNetResourceFunc := none, connecting := 0 } = ((default : Nat), some .netPoolNil) ∧
    NetResourceNode.GetClient
      { netPool := none, nodeType := "mqttClient", netResourceId := ""
        initNetResourceFunc := none, connecting := 0 } =
      ((default : Nat), some .clientNotInit) :=
  ⟨((getClient_modes _).2.1 (fun _ _ => ((42 : Nat), none)) (by decide) rfl).1 rfl,
    (getClient_modes _).1 (by decide) rfl,
    (getClient_modes _).2.2.2 rfl rfl⟩

theorem isPrefixOf_append (l m : List Char) : l.isPrefixOf (l ++ m) = true := by
  induction l with
  | nil => simp [List.isPrefixOf]
  | cons c rest ih => simp [List.isPrefixOf, ih]

/-- C6 counterexample: the server string that is exactly the reserved prefix
carries the prefix, yet `Init` records no pool key and dials locally once —
refuting "if and only if it carries the reserved pool-reference prefix, Init
records the suffix as the pool key and performs no local dial". -/
theorem init_bare_prefix_cex :
    nodeUtils.IsNetPool "ref://" = true ∧
    (NetResourceNode.Init (T := Nat) none "t" "ref://" (fun _ => (0, none))).dials = 1 ∧
    (NetResourceNode.Init (T := Nat) none "t" "ref://" (fun _ => (0, none))).node.netResourceId
        = "" := by
  decide

/-- C6 amended: `Init` selects pooled mode exactly when the server string is
the reserved prefix followed by a non-empty suffix; it then records the
suffix as the resource id and performs no dial and returns no error.  For
every string lacking the prefix — and also for the bare prefix with empty
suffix — it stores the dial function, invokes it exactly once immediately,
and returns that dial's error. -/
theorem init_mode_selection {T : Type} (np : Option (String → String → T × Option Err))
    (nodeType : String) (dial : Unit → T × Option Err) :
    (∀ server, nodeUtils.IsNetPool server = false →
      NetResourceNode.Init np nodeType server dial =
        { node := { netPool := np, nodeType := nodeType, netResourceId := ""
                    initNetResourceFunc := some dial, connecting := 0 }
          dials := 1, err := (dial ()).2 }) ∧
    (∀ suffix : String, suffix ≠ "" →
      NetResourceNode.Init np nodeType (NodeConfigurationPrefixNetResource ++ suffix) dial =
        { node := { netPool := np, nodeType := nodeType, netResourceId := suffix
                    initNetResourceFunc := none, connecting := 0 }
          dials := 0, err := none }) ∧
    NetResourceNode.Init np nodeType NodeConfigurationPrefixNetResource dial =
      { node := { netPool := np, nodeType := nodeType, netResourceId := ""
                  initNetResourceFunc := some dial, connecting := 0 }
        dials := 1, err := (dial ()).2 } := by
  refine ⟨fun server h => ?_, fun suffix h => ?_, ?_⟩
  · simp [NetResourceNode.Init, nodeUtils.GetNetResourceId, h]
  · have hdata : (NodeConfigurationPrefixNetResource ++ suffix).data =
        NodeConfigurationPrefixNetResource.data ++ suffix.data := rfl
    have hpre : nodeUtils.IsNetPool (NodeConfigurationPrefixNetResource ++ suffix) = true := by
      unfold nodeUtils.IsNetPool
      rw [hdata]
      exact isPrefixOf_append _ _
    have hid : nodeUtils.GetNetResourceId (NodeConfigurationPrefixNetResource ++ suffix)
        = suffix := by
      unfold nodeUtils.GetNetResourceId
      rw [hpre, if_pos rfl, hdata, List.drop_left]
    simp [NetResourceNode.Init, hid, h]
  · have hid0 : nodeUtils.GetNetResourceId NodeConfigurationPrefixNetResource = "" := by
      decide
    simp [NetResourceNode.Init, hid0]

theorem init_mode_selection_witness :
    nodeUtils.IsNetPool "127.0.0.1:1883" = false ∧
    NetResourceNode.Init (T := Nat) none "mqttClient" "127.0.0.1:1883"
        (fun _ => (7, none)) =
      { node := { netPool := none, nodeType := "mqttClient", netResourceId := ""
                  initNetResourceFunc := some fun _ => (7, none), connecting := 0 }
        dials := 1, err := none } ∧
    NetResourceNode.Init (T := Nat) none "mqttClient"
        (NodeConfigurationPrefixNetResource ++ "my_mqtt_client01") (fun _ => (7, none)) =
      { node := { netPool := none, nodeType := "mqttClient"
                  netResourceId := "my_mqtt_client01"
                  initNetResourceFunc := none, connecting := 0 }
        dials := 0, err := none } :=
  ⟨by decide,
    (init_mode_selection none "mqttClient" (fun _ => (7, none))).1 "127.0.0.1:1883" (by decide),
    (init_mode_selection none "mqttClient" (fun _ => (7, none))).2.1 "my_mqtt_client01"
      (by decide)⟩

theorem runOps_stays_inprogress {T : Type} (ops : List ConnectOp) :
    ∀ x : NetResourceNode T, x.connecting = 1 → (∀ o ∈ ops, o ≠ ConnectOp.connected) →
      (runOps x ops).connecting = 1 := by
  induction ops with
  | nil => intro x h _; simpa [runOps] using h
  | cons o rest ih =>
    intro x h hops
    have hstep : runOps x (o :: rest) = runOps (runOp x o) rest := rfl
    rw [hstep]
    have ho := hops o (List.mem_cons_self _ _)
    have hrest : ∀ o' ∈ rest, o' ≠ ConnectOp.connected :=
      fun o' ho' => hops o' (List.mem_cons_of_mem _ ho')
    cases o with
    | connect =>
      have hx : runOp x ConnectOp.connect = x := by
        simp [runOp, NetResourceNode.Connect, h]
      rw [hx]
      exact ih x h hrest
    | isConnecting => exact ih x h hrest
    | connected => exact absurd rfl ho

/-- C8: single-flight guard semantics of the `Connecting` flag: `Connect`
returns true and marks in-progress exactly when the flag was idle and
otherwise returns false leaving the state unchanged; `IsConnecting` is a pure
read of the flag; `Connected` resets it to idle; and after a `Connect` that
returned true, every further `Connect` across any sequence of guard
operations containing no `Connected` returns false. -/
theorem connect_guard_semantics {T : Type} :
    (∀ x : NetResourceNode T, x.connecting = 0 →
      x.Connect = (true, { x with connecting := 1 })) ∧
    (∀ x : NetResourceNode T, x.connecting ≠ 0 → x.Connect = (false, x)) ∧
    (∀ x : NetResourceNode T, x.IsConnecting = true ↔ x.connecting = 1) ∧
    (∀ x : NetResourceNode T, x.Connected = { x with connecting := 0 }) ∧
    (∀ (x : NetResourceNode T) (ops : List ConnectOp), x.connecting = 0 →
      (∀ o ∈ ops, o ≠ ConnectOp.connected) →
      (runOps x.Connect.2 ops).Connect.1 = false) := by
  refine ⟨fun x h => ?_, fun x h => ?_, fun x => ?_, fun x => rfl, fun x ops h hops => ?_⟩
  · simp [NetResourceNode.Connect, h]
  · simp [NetResourceNode.Connect, h]
  · simp [NetResourceNode.IsConnecting]
  · have h1 : (x.Connect.2).connecting = 1 := by
      simp [NetResourceNode.Connect, h]
    have h2 := runOps_stays_inprogress ops x.Connect.2 h1 hops
    have key : ∀ y : NetResourceNode T, y.connecting = 1 → y.Connect.1 = false := by
      intro y hy
      simp [NetResourceNode.Connect, hy]
    exact key _ h2

theorem filter_ne_of_not_mem {α : Type} (l : List (String × α)) (k : String)
    (h : k ∉ l.map Prod.fst) : l.filter (fun kv => kv.1 ≠ k) = l := by
  induction l with
  | nil => rfl
  | cons kv rest ih =>
    have hk : kv.1 ≠ k := fun hh => h (hh ▸ List.mem_map_of_mem Prod.fst (List.mem_cons_self _ _))
    have hrest : k ∉ rest.map Prod.fst := fun hh => h (List.mem_cons_of_mem _ hh)
    simp [hk]
    intro a b hab hak
    exact hrest (hak ▸ List.mem_map_of_mem Prod.fst hab)

theorem stopLoop_entries (nt : String) :
    ∀ (l : List (String × RuleNodeCtx)) (acc : List RuleNodeCtx),
      (l.map Prod.fst).Nodup →
      NodeNetPool.stopLoop (l.map Prod.fst) ⟨nt, l⟩ acc = (⟨nt, []⟩, acc ++ l.map Prod.snd) := by
  intro l
  induction l with
  | nil => intro acc _; simp [NodeNetPool.stopLoop]
  | cons kv rest ih =>
    intro acc hnd
    obtain ⟨k0, v0⟩ := kv
    have hnotmem : k0 ∉ rest.map Prod.fst := by
      simp only [List.map, List.nodup_cons] at hnd
      exact hnd.1
    have hnd' : (rest.map Prod.fst).Nodup := by
      simp only [List.map, List.nodup_cons] at hnd
      exact hnd.2
    have hdel : NodeNetPool.Del ⟨nt, (k0, v0) :: rest⟩ k0 = (⟨nt, rest⟩, [v0]) := by
      have hfil : deleteEntry ((k0, v0) :: rest) k0 = rest := by
        unfold deleteEntry
        rw [List.filter_cons_of_neg]
        · exact filter_ne_of_not_mem rest k0 hnotmem
        · simp
      simp [NodeNetPool.Del, lookupEntry, hfil]
    show NodeNetPool.stopLoop (k0 :: rest.map Prod.fst) ⟨nt, (k0, v0) :: rest⟩ acc = _
    rw [NodeNetPool.stopLoop, hdel]
    rw [ih (acc ++ [v0]) hnd']
    simp

theorem netPool_stopLoop_destroys :
    ∀ (l : List (String × NodeNetPool)) (p : NetPool) (acc : List RuleNodeCtx),
      (NetPool.stopLoop l p acc).2 =
        acc ++ (l.map (fun kv => (NodeNetPool.Stop kv.2).2)).flatten := by
  intro l
  induction l with
  | nil => intro p acc; simp [NetPool.stopLoop]
  | cons kv rest ih =>
    intro p acc
    rw [NetPool.stopLoop, ih]
    simp

theorem netPool_stopLoop_pools :
    ∀ (l : List (String × NodeNetPool)) (p : NetPool) (acc : List RuleNodeCtx),
      (∀ kv ∈ p.pools, kv.1 ∈ l.map Prod.fst) →
      (NetPool.stopLoop l p acc).1.pools = [] := by
  intro l
  induction l with
  | nil =>
    intro p acc h
    have : p.pools = [] := by
      apply List.eq_nil_iff_forall_not_mem.mpr
      intro kv hkv
      simpa using h kv hkv
    simp [NetPool.stopLoop, this]
  | cons kv rest ih =>
    intro p acc h
    rw [NetPool.stopLoop]
    apply ih
    intro kv' hkv'
    have hmem := List.mem_filter.mp hkv'
    have hne : kv'.1 ≠ kv.1 := by simpa using hmem.2
    have := h kv' hmem.1
    simp only [List.map, List.mem_cons] at this
    rcases this with h1 | h1
    · exact absurd h1 hne
    · exact h1

/-- C7: `NetPool.Stop` destroys and removes every entry across every node
type: afterwards the outer map is empty, a subsequent `GetAll` returns a
collection with no entries for any type, and the contexts whose `Destroy`
was called are exactly all entries of all sub-pools. -/
theorem netpool_stop_empties_all (p : NetPool)
    (hin : ∀ kv ∈ p.pools, (kv.2.entries.map Prod.fst).Nodup) :
    (NetPool.Stop p).1.pools = [] ∧
    NetPool.GetAll (NetPool.Stop p).1 = [] ∧
    (NetPool.Stop p).2 = (p.pools.map (fun kv => kv.2.entries.map Prod.snd)).flatten := by
  have hempty : (NetPool.Stop p).1.pools = [] :=
    netPool_stopLoop_pools p.pools p [] (fun kv h => List.mem_map_of_mem Prod.fst h)
  refine ⟨hempty, ?_, ?_⟩
  · unfold NetPool.GetAll
    rw [hempty]
    rfl
  · rw [NetPool.Stop, netPool_stopLoop_destroys]
    simp only [List.nil_append]
    congr 1
    apply List.map_congr_left
    intro kv hkv
    have h := stopLoop_entries kv.2.nodeType kv.2.entries [] (hin kv hkv)
    unfold NodeNetPool.Stop
    rw [h]
    simp

theorem netpool_stop_empties_all_witness :
    (NetPool.Stop samplePool).1.pools = [] ∧
    NetPool.GetAll (NetPool.Stop samplePool).1 = [] ∧
    (NetPool.Stop samplePool).2 = [mqttCtx] := by
  have h := netpool_stop_empties_all samplePool (by decide)
  exact ⟨h.1, h.2.1, by rw [h.2.2]; decide⟩

theorem connect_guard_semantics_witness :
    guardNode.Connect.1 = true ∧
    (runOps guardNode.Connect.2 [ConnectOp.connect, ConnectOp.isConnecting]).Connect.1
        = false := by
  constructor
  · rw [(connect_guard_semantics (T := Nat)).1 guardNode rfl]
  · exact (connect_guard_semantics (T := Nat)).2.2.2.2 guardNode
      [ConnectOp.connect, ConnectOp.isConnecting] rfl (by decide)

theorem readBrace_append (l r : List Char) (h : '}' ∉ l) :
    readBrace (l ++ '}' :: r) = some (l, r) := by
  induction l with
  | nil => simp [readBrace]
  | cons c rest ih =>
    have hc : c ≠ '}' := fun hh => h (hh ▸ List.mem_cons_self _ _)
    have hrest : '}' ∉ rest := fun hh => h (List.mem_cons_of_mem _ hh)
    simp [readBrace, hc, ih hrest]

theorem splitScope_append (a b : List Char) (h : '.' ∉ a) :
    splitScope (a ++ '.' :: b) = some (a, b) := by
  induction a with
  | nil => simp [splitScope]
  | cons c rest ih =>
    have hc : c ≠ '.' := fun hh => h (hh ▸ List.mem_cons_self _ _)
    have hrest : '.' ∉ rest := fun hh => h (List.mem_cons_of_mem _ hh)
    simp [splitScope, hc, ih hrest]

theorem substAux_nil (props : List (String × String))
    (chainVars : Option (List (String × String))) (fuel : Nat) :
    substAux props chainVars fuel [] = [] := by
  cases fuel <;> rfl

theorem substAux_placeholder (props : List (String × String))
    (chainVars : Option (List (String × String))) (scope name : String) (fuel : Nat)
    (hs1 : '.' ∉ scope.data) (hs2 : '}' ∉ scope.data) (hn : '}' ∉ name.data) :
    substAux props chainVars (fuel + 1)
        ('$' :: '{' :: (scope.data ++ '.' :: (name.data ++ ['}']))) =
      (match lookupVar props chainVars scope name with
       | some v => v.data
       | none => '$' :: '{' :: (scope.data ++ '.' :: (name.data ++ ['}']))) := by
  obtain ⟨ls⟩ := scope
  obtain ⟨ln⟩ := name
  dsimp only at hs1 hs2 hn ⊢
  have hassoc : ls ++ '.' :: (ln ++ ['}']) = (ls ++ '.' :: ln) ++ '}' :: [] := by
    simp
  have hcontent : '}' ∉ ls ++ '.' :: ln := by
    intro hmem
    rcases List.mem_append.mp hmem with hm | hm
    · exact hs2 hm
    · rcases List.mem_cons.mp hm with hm | hm
      · exact absurd hm (by decide)
      · exact hn hm
  simp only [substAux, hassoc, readBrace_append _ _ hcontent,
    splitScope_append _ _ hs1, substAux_nil, if_true]
  cases hv : lookupVar props chainVars (String.mk ls) (String.mk ln) <;>
    simp [hv]

theorem substituteVar_placeholder (props : List (String × String))
    (chainVars : Option (List (String × String))) (scope name : String)
    (hs1 : '.' ∉ scope.data) (hs2 : '}' ∉ scope.data) (hn : '}' ∉ name.data) :
    substituteVar props chainVars (ph scope name) =
      (match lookupVar props chainVars scope name with
       | some v => v
       | none => ph scope name) := by
  unfold substituteVar ph
  show String.mk (substAux props chainVars
      (('{' :: (scope.data ++ '.' :: (name.data ++ ['}']))).length + 1)
      ('$' :: '{' :: (scope.data ++ '.' :: (name.data ++ ['}'])))) = _
  rw [substAux_placeholder props chainVars scope name _ hs1 hs2 hn]
  cases hv : lookupVar props chainVars scope name <;> simp [hv, ph]

/-- C9: variable resolution of a configuration mapping: a `global`-scope
placeholder entry resolves to the process-scope value when present and stays
verbatim (with no error) when absent; a `vars`-scope placeholder resolves to
the pipeline scope's declared value when one is supplied and stays verbatim
when it is not; every non-string value passes through unchanged (and string
entries are mapped through substitution without disturbing the rest). -/
theorem process_variables_resolution :
    (∀ (props : List (String × String)) (chainVars : Option (List (String × String)))
       (name v : String), '}' ∉ name.data → lookupEntry props name = some v →
      substituteVar props chainVars (ph "global" name) = v) ∧
    (∀ (props : List (String × String)) (chainVars : Option (List (String × String)))
       (name : String), '}' ∉ name.data → lookupEntry props name = none →
      substituteVar props chainVars (ph "global" name) = ph "global" name) ∧
    (∀ (props vs : List (String × String)) (x v : String), '}' ∉ x.data →
      lookupEntry vs x = some v → substituteVar props (some vs) (ph "vars" x) = v) ∧
    (∀ (props : List (String × String)) (x : String), '}' ∉ x.data →
      substituteVar props none (ph "vars" x) = ph "vars" x) ∧
    (∀ (props : List (String × String)) (chainVars : Option (List (String × String)))
       (c : List (String × CfgValue)) (k : String) (v : CfgValue), (k, v) ∈ c →
      (∀ s, v ≠ CfgValue.str s) → (k, v) ∈ (processVariables props chainVars c).1) ∧
    (∀ (props : List (String × String)) (chainVars : Option (List (String × String)))
       (c : List (String × CfgValue)) (k s : String), (k, CfgValue.str s) ∈ c →
      (k, CfgValue.str (substituteVar props chainVars s)) ∈
        (processVariables props chainVars c).1) ∧
    (∀ (props : List (String × String)) (chainVars : Option (List (String × String)))
       (c : List (String × CfgValue)), (processVariables props chainVars c).2 = none) := by
  refine ⟨fun props cv name v hn hl => ?_, fun props cv name hn hl => ?_,
    fun props vs x v hn hl => ?_, fun props x hn => ?_,
    fun props cv c k v hmem hns => ?_, fun props cv c k s hmem => ?_,
    fun props cv c => rfl⟩
  · rw [substituteVar_placeholder props cv "global" name (by decide) (by decide) hn]
    simp [lookupVar, hl]
  · rw [substituteVar_placeholder props cv "global" name (by decide) (by decide) hn]
    simp [lookupVar, hl]
  · rw [substituteVar_placeholder props (some vs) "vars" x (by decide) (by decide) hn]
    simp [lookupVar, hl]
  · rw [substituteVar_placeholder props none "vars" x (by decide) (by decide) hn]
    simp [lookupVar]
  · unfold processVariables
    apply List.mem_map.mpr
    refine ⟨(k, v), hmem, ?_⟩
    cases v with
    | str s => exact absurd rfl (hns s)
    | num n => rfl
    | boolean b => rfl
  · unfold processVariables
    apply List.mem_map.mpr
    exact ⟨(k, CfgValue.str s), hmem, rfl⟩

theorem process_variables_resolution_witness :
    substituteVar [("name", "lala")] none (ph "global" "name") = "lala" ∧
    substituteVar [] none (ph "global" "name") = ph "global" "name" ∧
    substituteVar [] (some [("ip", "127.0.0.1")]) (ph "vars" "ip") = "127.0.0.1" ∧
    ph "global" "name" = "${global.name}" ∧
    (processVariables [("name", "lala")] none
        [("name", CfgValue.str (ph "global" "name")), ("age", CfgValue.num 18)]).1 =
      [("name", CfgValue.str "lala"), ("age", CfgValue.num 18)] := by
  refine ⟨process_variables_resolution.1 [("name", "lala")] none "name" "lala"
      (by decide) (by decide),
    process_variables_resolution.2.1 [] none "name" (by decide) (by decide),
    process_variables_resolution.2.2.1 [] [("ip", "127.0.0.1")] "ip" "127.0.0.1"
      (by decide) (by decide),
    by decide, by decide⟩

theorem mem_storeEntry {α : Type} (l : List (String × α)) (k : String) (v : α)
    (kv : String × α) (h : kv ∈ storeEntry l k v) : kv = (k, v) ∨ kv ∈ l := by
  induction l with
  | nil => simpa [storeEntry] using h
  | cons kv0 rest ih =>
    by_cases hk : kv0.1 = k
    · simp only [storeEntry, if_pos hk] at h
      rcases List.mem_cons.mp h with h | h
      · exact Or.inl h
      · exact Or.inr (List.mem_cons_of_mem _ h)
    · simp only [storeEntry, if_neg hk] at h
      rcases List.mem_cons.mp h with h | h
      · exact Or.inr (h ▸ List.mem_cons_self _ _)
      · rcases ih h with h1 | h1
        · exact Or.inl h1
        · exact Or.inr (List.mem_cons_of_mem _ h1)

theorem poolInv_store (n : NodeNetPool) (e : RuleNodeCtx) (hinv : PoolInv n) :
    PoolInv { n with entries := storeEntry n.entries e.GetNodeId e } := by
  intro k e' hl
  by_cases hk : k = e.GetNodeId
  · subst hk
    rw [lookupEntry_storeEntry_self] at hl
    cases hl
    rfl
  · rw [lookupEntry_storeEntry_ne _ _ _ _ hk] at hl
    exact hinv k e' hl

theorem initCtx_selfDefinition (cfg : Config) (d : RuleNode) (ctx : RuleNodeCtx)
    (h : InitNetResourceNodeCtx cfg d = .ok ctx) : ctx.selfDefinition = d := by
  unfold InitNetResourceNodeCtx at h
  cases hr : cfg.registry d.nodeType with
  | none => rw [hr] at h; simp at h
  | some comp =>
    rw [hr] at h
    dsimp only at h
    cases hie : comp.initError with
    | some er => rw [hie] at h; simp at h
    | none =>
      rw [hie] at h
      simp at h
      rw [← h]

theorem newFromDef_spec (cfg : Config) (n : NodeNetPool) (d : RuleNode) (hinv : PoolInv n) :
    PoolInv (NodeNetPool.NewFromDef cfg n d).pool ∧
    ∀ e, (NodeNetPool.NewFromDef cfg n d).result = .ok e →
      e.GetNodeId = d.Id ∧
      lookupEntry (NodeNetPool.NewFromDef cfg n d).pool.entries d.Id = some e := by
  unfold NodeNetPool.NewFromDef
  cases hl : lookupEntry n.entries d.Id with
  | some v =>
    refine ⟨hinv, fun e he => ?_⟩
    simp at he
    rw [← he]
    exact ⟨hinv d.Id v hl, hl⟩
  | none =>
    cases hi : InitNetResourceNodeCtx cfg d with
    | error er => exact ⟨hinv, fun e he => by simp at he⟩
    | ok ctx =>
      have hself : ctx.selfDefinition = d := initCtx_selfDefinition cfg d ctx hi
      by_cases hcap : ctx.node.implementsNetResource
      · simp only [NewNetResourceCtx, if_pos hcap]
        refine ⟨poolInv_store n ctx hinv, fun e he => ?_⟩
        simp at he
        rw [← he]
        have hid : ctx.GetNodeId = d.Id := by
          unfold RuleNodeCtx.GetNodeId
          rw [hself]
        refine ⟨hid, ?_⟩
        rw [← hid]
        exact lookupEntry_storeEntry_self _ _ _
      · simp only [NewNetResourceCtx, if_neg hcap]
        exact ⟨hinv, fun e he => by simp at he⟩

theorem nodeNetPool_new_spec (cfg : Config) (n : NodeNetPool) (id dsl : String)
    (hinv : PoolInv n) :
    PoolInv (NodeNetPool.New cfg n id dsl).pool ∧
    ∀ e, (NodeNetPool.New cfg n id dsl).result = .ok e →
      lookupEntry (NodeNetPool.New cfg n id dsl).pool.entries e.GetNodeId = some e ∧
      (id ≠ "" → lookupEntry (NodeNetPool.New cfg n id dsl).pool.entries id = some e) ∧
      (id = "" → lookupEntry n.entries "" = none →
        ∀ d, cfg.decodeRuleNode dsl = .ok d →
          lookupEntry (NodeNetPool.New cfg n id dsl).pool.entries d.Id = some e) := by
  cases hl : lookupEntry n.entries id with
  | some v =>
    have hred : NodeNetPool.New cfg n id dsl =
        { result := .ok v, pool := n, inits := 0, decodes := 0, destroys := [] } := by
      unfold NodeNetPool.New
      rw [hl]
    rw [hred]
    refine ⟨hinv, fun e he => ?_⟩
    simp at he
    rw [← he]
    have hid : v.GetNodeId = id := hinv id v hl
    refine ⟨by rw [hid]; exact hl, fun _ => hl, fun h0 hnone => ?_⟩
    rw [h0, hnone] at hl
    cases hl
  | none =>
    cases hdec : cfg.decodeRuleNode dsl with
    | error er =>
      have hred : NodeNetPool.New cfg n id dsl =
          { result := .error er, pool := n, inits := 0, decodes := 1, destroys := [] } := by
        unfold NodeNetPool.New
        rw [hl, hdec]
      rw [hred]
      exact ⟨hinv, fun e he => by simp at he⟩
    | ok nodeDef =>
      have hred : NodeNetPool.New cfg n id dsl =
          { NodeNetPool.NewFromDef cfg n
              (if id ≠ "" then { nodeDef with Id := id } else nodeDef) with
            decodes := (NodeNetPool.NewFromDef cfg n
              (if id ≠ "" then { nodeDef with Id := id } else nodeDef)).decodes + 1 } := by
        unfold NodeNetPool.New
        rw [hl, hdec]
      rw [hred]
      have hspec := newFromDef_spec cfg n
        (if id ≠ "" then { nodeDef with Id := id } else nodeDef) hinv
      refine ⟨hspec.1, fun e he => ?_⟩
      have h2 := hspec.2 e he
      by_cases hne : id ≠ ""
      · rw [if_pos hne] at h2 ⊢
        refine ⟨by rw [h2.1]; exact h2.2, fun _ => h2.2, fun h0 _ => absurd h0 hne⟩
      · rw [if_neg hne] at h2 ⊢
        refine ⟨by rw [h2.1]; exact h2.2, fun hc => absurd hc hne, fun h0 hnone d hd => ?_⟩
        injection hd with hd
        subst hd
        exact h2.2

theorem samplePool_inv : ∀ kv ∈ samplePool.pools, PoolInv kv.2 := by
  intro kv hkv
  have hkv' : kv = ("mqttClient", sampleSubPool) := by
    simpa [samplePool] using hkv
  rw [hkv']
  intro k e h
  simp only [sampleSubPool, lookupEntry] at h
  split at h
  · cases h
    rename_i hk
    rw [← hk]
    rfl
  · cases h

/-- C10: pool key consistency invariant: creation keeps every sub-pool entry
keyed by the node id of the stored context itself; consequently a successful
`NetPool.New` leaves the returned entry retrievable under its own node id,
under `id` when `id` is non-empty, and — when `id` is empty and nothing was
already stored under the empty key (the situation in which the definition
bytes are decoded at all) — under the decoded definition's id. -/
theorem pool_key_consistency (cfg : Config) (p : NetPool) (nodeType id dsl : String)
    (e : RuleNodeCtx)
    (hinv : ∀ kv ∈ p.pools, PoolInv kv.2)
    (hok : (NetPool.New cfg p nodeType id dsl).result = .ok e) :
    (∀ kv ∈ (NetPool.New cfg p nodeType id dsl).pool.pools, PoolInv kv.2) ∧
    NetPool.Get (NetPool.New cfg p nodeType id dsl).pool nodeType e.GetNodeId = some e ∧
    (id ≠ "" → NetPool.Get (NetPool.New cfg p nodeType id dsl).pool nodeType id = some e) ∧
    (id = "" → NetPool.Get p nodeType "" = none →
      ∀ d, cfg.decodeRuleNode dsl = .ok d →
        NetPool.Get (NetPool.New cfg p nodeType id dsl).pool nodeType d.Id = some e) := by
  have hsubinv : PoolInv (p.subPoolFor nodeType) := by
    unfold NetPool.subPoolFor
    cases hl : lookupEntry p.pools nodeType with
    | some sub => exact hinv (nodeType, sub) (lookupEntry_mem _ _ _ hl)
    | none =>
      intro k e' h
      cases h
  have hspec := nodeNetPool_new_spec cfg (p.subPoolFor nodeType) id dsl hsubinv
  have hok' : (NodeNetPool.New cfg (p.subPoolFor nodeType) id dsl).result = .ok e := hok
  have hpool : (NetPool.New cfg p nodeType id dsl).pool.pools
      = storeEntry p.pools nodeType (NodeNetPool.New cfg (p.subPoolFor nodeType) id dsl).pool :=
    rfl
  have hget : ∀ k, NetPool.Get (NetPool.New cfg p nodeType id dsl).pool nodeType k
      = lookupEntry (NodeNetPool.New cfg (p.subPoolFor nodeType) id dsl).pool.entries k := by
    intro k
    unfold NetPool.Get
    rw [hpool, lookupEntry_storeEntry_self]
    rfl
  have hsub0 : id = "" → NetPool.Get p nodeType "" = none →
      lookupEntry (p.subPoolFor nodeType).entries "" = none := by
    intro h1 h2
    unfold NetPool.Get at h2
    unfold NetPool.subPoolFor
    cases hl : lookupEntry p.pools nodeType with
    | some sub =>
      rw [hl] at h2
      exact h2
    | none => rfl
  refine ⟨?_, ?_, ?_, ?_⟩
  · intro kv hkv
    rw [hpool] at hkv
    rcases mem_storeEntry _ _ _ _ hkv with h1 | h1
    · rw [h1]
      exact hspec.1
    · exact hinv kv h1
  · rw [hget]
    exact (hspec.2 e hok').1
  · intro hne
    rw [hget]
    exact (hspec.2 e hok').2.1 hne
  · intro h1 h2 d hd
    rw [hget]
    exact (hspec.2 e hok').2.2 h1 (hsub0 h1 h2) d hd

theorem pool_key_consistency_witness :
    (NetPool.New sampleConfig samplePool "mqttClient" "my_mqtt_client02" "mqtt-dsl").result
        = .ok mqttCtx2 ∧
    NetPool.Get (NetPool.New sampleConfig samplePool "mqttClient" "my_mqtt_client02"
        "mqtt-dsl").pool "mqttClient" "my_mqtt_client02" = some mqttCtx2 := by
  refine ⟨by decide, ?_⟩
  exact (pool_key_consistency sampleConfig samplePool "mqttClient" "my_mqtt_client02"
    "mqtt-dsl" mqttCtx2 samplePool_inv (by decide)).2.2.1 (by decide)
